import Mathlib

/-!
# Verification of the Wenidi attendance Move module

This file is a shallow embedding of `sources/attendence.move`
(module `wenidi_addr::attendance_system`) together with proofs of the
specified properties.

Modelling conventions:
* Move addresses are `Nat`; Move `String` is Lean `String`; `u64`/`u8`
  values are `Nat` (no arithmetic overflow occurs anywhere in the module:
  the only arithmetic is the loop counter `i + 1`, bounded by a vector
  length).
* `aptos_std::smart_table::SmartTable<K, V>` is an association list
  `List (K × V)`; `contains`/`borrow`/`add` and in-place mutation through
  `borrow_mut` become `tContains`/`tGet?`/`tAdd`/`tSet`.
* Global storage (`move_to` / `borrow_global_mut`) is an association list
  from addresses to `AttendanceSystem` resources.  `move_to(admin, r)`
  stores the resource at the *signer's* address and aborts if one is
  already there; `borrow_global` reads the address `@wenidi_addr` and
  aborts if the resource is absent.
* `timestamp::now_seconds()` is an explicit parameter `now`; within one
  call every use of the clock returns the same `now`, as on chain.
* Each entry function is a function `Storage → Except (MoveAbort × Storage)
  Storage`.  An `error` result carries the storage as it was at the Move
  abort point; since a Move abort discards the whole transaction, the
  state actually committed after a failed call is the *input* storage, and
  proving that the carried storage equals the input storage shows that the
  abort fired before any mutation.
* `event::emit_event` appends to a per-resource list of events.
* Aborts are `MoveAbort`: `code n` for the module's own `assert!` codes,
  and distinguished constructors for the framework aborts the module can
  hit (`smart_table` lookup of a missing key, `move_to` over an existing
  resource, `borrow_global` of a missing resource).
-/

/-- Move addresses (abstract). -/
abbrev Addr := Nat

/-- The named address `@wenidi_addr` at which the module is deployed and at
which every `borrow_global` in the module looks for the resource. -/
def wenidi_addr : Addr := 0

/-- Abort of a Move transaction. -/
inductive MoveAbort
  /-- an `assert!(_, n)` in the module itself -/
  | code (n : Nat)
  /-- `smart_table::borrow`/`borrow_mut` on an absent key -/
  | tableMissingKey
  /-- `move_to` at an address already holding the resource -/
  | resourceAlreadyExists
  /-- `borrow_global(_mut)` when the resource is absent -/
  | missingResource
deriving DecidableEq

/-- `SmartTable` model: association list, first binding wins. -/
abbrev Table (K V : Type) := List (K × V)

/-- `smart_table::borrow` as an `Option`: value of the first binding of `k`. -/
def tGet? {K V : Type} [DecidableEq K] : Table K V → K → Option V
  | [], _ => none
  | (k', v) :: t, k => if k = k' then some v else tGet? t k

/-- `smart_table::contains`. -/
def tContains {K V : Type} [DecidableEq K] (t : Table K V) (k : K) : Bool :=
  (tGet? t k).isSome

/-- `smart_table::add` (callers of the module only invoke it on fresh keys,
so prepending the binding is faithful). -/
def tAdd {K V : Type} (t : Table K V) (k : K) (v : V) : Table K V :=
  (k, v) :: t

/-- In-place update through `smart_table::borrow_mut`: replace the value of
the first binding of `k`; no effect if `k` is absent. -/
def tSet {K V : Type} [DecidableEq K] : Table K V → K → V → Table K V
  | [], _, _ => []
  | (k', v') :: t, k, v => if k = k' then (k, v) :: t else (k', v') :: tSet t k v

/-! ## Data model (structs and constants of the module) -/

def E_NOT_AUTHORIZED : Nat := 1
def E_USER_NOT_FOUND : Nat := 2
def E_ALREADY_REGISTERED : Nat := 3
def E_INVALID_USER_TYPE : Nat := 4
def E_ATTENDANCE_ALREADY_MARKED : Nat := 5

def USER_TYPE_STUDENT : Nat := 1
def USER_TYPE_TEACHER : Nat := 2
def USER_TYPE_ADMIN : Nat := 3

/-- struct `User`. -/
structure User where
  address : Addr
  name : String
  user_type : Nat
  registration_time : Nat
deriving DecidableEq

/-- struct `AttendanceRecord`. -/
structure AttendanceRecord where
  user_address : Addr
  date : String
  check_in_time : Nat
  check_out_time : Nat
  is_present : Bool
  marked_by : Addr
deriving DecidableEq

/-- struct `UserRegistrationEvent`. -/
structure UserRegistrationEvent where
  user_address : Addr
  name : String
  user_type : Nat
  timestamp : Nat
deriving DecidableEq

/-- struct `AttendanceMarkedEvent`. -/
structure AttendanceMarkedEvent where
  user_address : Addr
  date : String
  check_in_time : Nat
  is_present : Bool
  marked_by : Addr
  timestamp : Nat
deriving DecidableEq

/-- struct `AttendanceSystem` (the resource). -/
structure AttendanceSystem where
  admin : Addr
  users : Table Addr User
  attendance_records : Table String (List AttendanceRecord)
  daily_attendance : Table Addr (Table String AttendanceRecord)
  user_registration_events : List UserRegistrationEvent
  attendance_marked_events : List AttendanceMarkedEvent
deriving DecidableEq

/-- On-chain storage: which addresses hold an `AttendanceSystem` resource. -/
abbrev Storage := Table Addr AttendanceSystem

/-! ## Helper functions of the module -/

/-- `fun is_admin`. -/
def is_admin (user_addr : Addr) (users : Table Addr User) : Bool :=
  match tGet? users user_addr with
  | some user => user.user_type == USER_TYPE_ADMIN
  | none => false

/-- `fun is_teacher`. -/
def is_teacher (user_addr : Addr) (users : Table Addr User) : Bool :=
  match tGet? users user_addr with
  | some user => user.user_type == USER_TYPE_TEACHER
  | none => false

/-- The `while` loop of `mark_checkout`: scan the per-date vector, set
`check_out_time` on the first record whose `user_address` matches, then
`break`. -/
def updateFirst (now : Nat) (user_addr : Addr) :
    List AttendanceRecord → List AttendanceRecord
  | [] => []
  | r :: rs =>
    if r.user_address = user_addr then { r with check_out_time := now } :: rs
    else r :: updateFirst now user_addr rs

/-! ## Entry functions -/

/-- The `AttendanceSystem` value built by `initialize` for signer
`admin_addr` at time `now` (lines 70–88 of the source): fresh tables, the
hard-coded `"System Admin"` account for the signer, and the signer's empty
per-date sub-table. -/
def initSysVal (now : Nat) (admin_addr : Addr) : AttendanceSystem :=
  { admin := admin_addr,
    users := tAdd [] admin_addr
      { address := admin_addr, name := "System Admin",
        user_type := USER_TYPE_ADMIN, registration_time := now },
    attendance_records := [],
    daily_attendance := tAdd [] admin_addr [],
    user_registration_events := [],
    attendance_marked_events := [] }

/-- entry fun `initialize(admin: &signer)`.  Builds the resource and the
admin `User`, then `move_to(admin, ...)` — which aborts iff the *signer's*
address already holds the resource (there is no check that the signer is
`@wenidi_addr`). -/
def initSystem (now : Nat) (admin_addr : Addr) (st : Storage) :
    Except (MoveAbort × Storage) Storage :=
  if tContains st admin_addr then .error (.resourceAlreadyExists, st)
  else .ok (tAdd st admin_addr (initSysVal now admin_addr))

/-- entry fun `register_user(account, name, user_type)`. -/
def register_user (now : Nat) (user_addr : Addr) (name : String) (user_type : Nat)
    (st : Storage) : Except (MoveAbort × Storage) Storage :=
  match tGet? st wenidi_addr with
  | none => .error (.missingResource, st)
  | some sys =>
    if user_type = USER_TYPE_STUDENT ∨ user_type = USER_TYPE_TEACHER then
      if tContains sys.users user_addr then
        .error (.code E_ALREADY_REGISTERED, st)
      else
        let user : User := { address := user_addr, name := name,
                             user_type := user_type, registration_time := now }
        let sys' := { sys with
          users := tAdd sys.users user_addr user,
          daily_attendance := tAdd sys.daily_attendance user_addr [],
          user_registration_events := sys.user_registration_events ++
            [{ user_address := user_addr, name := name, user_type := user_type,
               timestamp := now }] }
        .ok (tSet st wenidi_addr sys')
    else .error (.code E_INVALID_USER_TYPE, st)

/-- entry fun `mark_attendance(marker, user_address, date, is_present)`. -/
def mark_attendance (now : Nat) (marker_addr user_address : Addr) (date : String)
    (is_present : Bool) (st : Storage) : Except (MoveAbort × Storage) Storage :=
  match tGet? st wenidi_addr with
  | none => .error (.missingResource, st)
  | some sys =>
    if marker_addr = user_address ∨ is_admin marker_addr sys.users
        ∨ is_teacher marker_addr sys.users then
      if tContains sys.users user_address then
        match tGet? sys.daily_attendance user_address with
        | none => .error (.tableMissingKey, st)
        | some user_attendance =>
          if tContains user_attendance date then
            .error (.code E_ATTENDANCE_ALREADY_MARKED, st)
          else
            let attendance_record : AttendanceRecord :=
              { user_address := user_address, date := date, check_in_time := now,
                check_out_time := 0, is_present := is_present,
                marked_by := marker_addr }
            let da' := tSet sys.daily_attendance user_address
              (tAdd user_attendance date attendance_record)
            let sys1 := { sys with daily_attendance := da' }
            let records0 := if tContains sys1.attendance_records date then
                sys1.attendance_records
              else tAdd sys1.attendance_records date []
            let daily_records := (tGet? records0 date).getD []
            let ev : AttendanceMarkedEvent :=
              { user_address := user_address, date := date, check_in_time := now,
                is_present := is_present, marked_by := marker_addr,
                timestamp := now }
            let recs' := tSet records0 date (daily_records ++ [attendance_record])
            let evs' := sys1.attendance_marked_events ++ [ev]
            let sys2 := { sys1 with attendance_records := recs',
                                    attendance_marked_events := evs' }
            .ok (tSet st wenidi_addr sys2)
      else .error (.code E_USER_NOT_FOUND, st)
    else .error (.code E_NOT_AUTHORIZED, st)

/-- entry fun `mark_checkout(user, date)`.  Note that the per-account copy
is mutated *before* the per-date vector is borrowed; the carried storage of
the `tableMissingKey` branch below is therefore already mutated (that
branch is unreachable from reachable states, see `reachable_sysInv`). -/
def mark_checkout (now : Nat) (user_addr : Addr) (date : String) (st : Storage) :
    Except (MoveAbort × Storage) Storage :=
  match tGet? st wenidi_addr with
  | none => .error (.missingResource, st)
  | some sys =>
    match tGet? sys.daily_attendance user_addr with
    | none => .error (.tableMissingKey, st)
    | some user_attendance =>
      match tGet? user_attendance date with
      | none => .error (.code E_USER_NOT_FOUND, st)
      | some attendance_record =>
        let record1 := { attendance_record with check_out_time := now }
        let da' := tSet sys.daily_attendance user_addr
          (tSet user_attendance date record1)
        let sys1 := { sys with daily_attendance := da' }
        let st1 := tSet st wenidi_addr sys1
        match tGet? sys1.attendance_records date with
        | none => .error (.tableMissingKey, st1)
        | some daily_records =>
          let recs' := tSet sys1.attendance_records date
            (updateFirst now user_addr daily_records)
          let sys2 := { sys1 with attendance_records := recs' }
          .ok (tSet st wenidi_addr sys2)

/-! ## View functions -/

/-- view fun `get_user_info`. -/
def get_user_info (user_address : Addr) (st : Storage) : Except MoveAbort User :=
  match tGet? st wenidi_addr with
  | none => .error .missingResource
  | some sys =>
    match tGet? sys.users user_address with
    | none => .error (.code E_USER_NOT_FOUND)
    | some u => .ok u

/-- view fun `get_user_attendance` (bare `borrow`s, so a missing account or
missing date aborts with the table's own error, not a module code). -/
def get_user_attendance (user_address : Addr) (date : String) (st : Storage) :
    Except MoveAbort AttendanceRecord :=
  match tGet? st wenidi_addr with
  | none => .error .missingResource
  | some sys =>
    match tGet? sys.daily_attendance user_address with
    | none => .error .tableMissingKey
    | some user_attendance =>
      match tGet? user_attendance date with
      | none => .error .tableMissingKey
      | some r => .ok r

/-- view fun `get_daily_attendance`. -/
def get_daily_attendance (date : String) (st : Storage) :
    Except MoveAbort (List AttendanceRecord) :=
  match tGet? st wenidi_addr with
  | none => .error .missingResource
  | some sys =>
    if tContains sys.attendance_records date then
      .ok ((tGet? sys.attendance_records date).getD [])
    else .ok []

/-- view fun `is_user_registered`. -/
def is_user_registered (user_address : Addr) (st : Storage) : Except MoveAbort Bool :=
  match tGet? st wenidi_addr with
  | none => .error .missingResource
  | some sys => .ok (tContains sys.users user_address)

/-- view fun `get_admin_address`. -/
def get_admin_address (st : Storage) : Except MoveAbort Addr :=
  match tGet? st wenidi_addr with
  | none => .error .missingResource
  | some sys => .ok sys.admin

/-- view fun `get_all_attendance_by_date`. -/
def get_all_attendance_by_date (date : String) (caller : Addr) (st : Storage) :
    Except MoveAbort (List AttendanceRecord) :=
  match tGet? st wenidi_addr with
  | none => .error .missingResource
  | some sys =>
    if is_admin caller sys.users then
      if tContains sys.attendance_records date then
        .ok ((tGet? sys.attendance_records date).getD [])
      else .ok []
    else .error (.code E_NOT_AUTHORIZED)

/-! ## Table lemmas -/

theorem tGet?_tAdd {K V : Type} [DecidableEq K] (t : Table K V) (k k' : K) (v : V) :
    tGet? (tAdd t k v) k' = if k' = k then some v else tGet? t k' := rfl

theorem tContains_tAdd {K V : Type} [DecidableEq K] (t : Table K V) (k k' : K)
    (v : V) : tContains (tAdd t k v) k' = (decide (k' = k) || tContains t k') := by
  by_cases h : k' = k <;> simp [tContains, tGet?_tAdd, h]

theorem tSet_not_contains {K V : Type} [DecidableEq K] {t : Table K V} {k : K}
    (v : V) (h : tContains t k = false) : tSet t k v = t := by
  induction t with
  | nil => rfl
  | cons p t ih =>
    obtain ⟨k2, v2⟩ := p
    by_cases hk : k = k2
    · subst hk; simp [tContains, tGet?] at h
    · simp only [tContains, tGet?, if_neg hk, tSet] at h ⊢
      rw [ih h]

theorem tGet?_tSet_self {K V : Type} [DecidableEq K] {t : Table K V} {k : K}
    (v : V) (h : tContains t k = true) : tGet? (tSet t k v) k = some v := by
  induction t with
  | nil => simp [tContains, tGet?] at h
  | cons p t ih =>
    obtain ⟨k2, v2⟩ := p
    by_cases hk : k = k2
    · subst hk; simp [tSet, tGet?]
    · simp only [tContains, tGet?, if_neg hk, tSet] at h ⊢
      simpa [tGet?, if_neg hk] using ih h

theorem tGet?_tSet_ne {K V : Type} [DecidableEq K] (t : Table K V) (k k' : K)
    (v : V) (h : k' ≠ k) : tGet? (tSet t k v) k' = tGet? t k' := by
  induction t with
  | nil => rfl
  | cons p t ih =>
    obtain ⟨k2, v2⟩ := p
    by_cases hk : k = k2
    · subst hk
      simp [tSet, tGet?, if_neg h]
    · simp only [tSet, if_neg hk, tGet?]
      by_cases hk2 : k' = k2 <;> simp [hk2, ih]

theorem tContains_tSet {K V : Type} [DecidableEq K] (t : Table K V) (k k' : K)
    (v : V) : tContains (tSet t k v) k' = tContains t k' := by
  by_cases hk : k' = k
  · subst hk
    cases h : tContains t k' with
    | false => rw [tSet_not_contains v h]; exact h
    | true => simp [tContains, tGet?_tSet_self v h, h]
  · simp [tContains, tGet?_tSet_ne t k k' v hk]

theorem tContains_iff_get {K V : Type} [DecidableEq K] (t : Table K V) (k : K) :
    tContains t k = true ↔ ∃ v, tGet? t k = some v := by
  simp [tContains, Option.isSome_iff_exists]

/-! ## Reachability -/

/-- One public entry call with its transaction-time clock value. -/
inductive EntryCall
  | initCall (now : Nat) (admin_addr : Addr)
  | reg (now : Nat) (user_addr : Addr) (name : String) (user_type : Nat)
  | mark (now : Nat) (marker_addr user_address : Addr) (date : String)
      (is_present : Bool)
  | checkout (now : Nat) (user_addr : Addr) (date : String)

/-- Dispatch a call to the corresponding entry function. -/
def execCall : EntryCall → Storage → Except (MoveAbort × Storage) Storage
  | .initCall now a, st => initSystem now a st
  | .reg now a n ty, st => register_user now a n ty st
  | .mark now m u d p, st => mark_attendance now m u d p st
  | .checkout now u d, st => mark_checkout now u d st

/-- Storages reachable from the empty chain by successful entry calls
(a failed call leaves the committed storage unchanged, so failures need no
step of their own). -/
inductive Reachable : Storage → Prop
  | empty : Reachable []
  | step (c : EntryCall) (st st' : Storage) :
      Reachable st → execCall c st = .ok st' → Reachable st'

/-! ## State invariants -/

/-- The per-date vector stored for date `d` (empty if the key is absent),
i.e. the contents of `attendance_records` seen through
`get_daily_attendance`. -/
def recsAt (sys : AttendanceSystem) (d : String) : List AttendanceRecord :=
  (tGet? sys.attendance_records d).getD []

/-- The record stored for `(u, d)` in the per-account index
`daily_attendance`. -/
def dailyAt (sys : AttendanceSystem) (u : Addr) (d : String) :
    Option AttendanceRecord :=
  match tGet? sys.daily_attendance u with
  | none => none
  | some ua => tGet? ua d

/-- Invariants of every reachable `AttendanceSystem` resource. -/
structure SysInv (sys : AttendanceSystem) : Prop where
  /-- `users` and `daily_attendance` always have the same key set. -/
  keys : ∀ a, tContains sys.users a = tContains sys.daily_attendance a
  /-- every record of the per-account index is in the per-date vector,
  keyed consistently with its own fields -/
  d2r : ∀ u d r, dailyAt sys u d = some r →
    r ∈ recsAt sys d ∧ r.user_address = u ∧ r.date = d
  /-- every record of a per-date vector is the per-account record of its
  subject -/
  r2d : ∀ d r, r ∈ recsAt sys d → dailyAt sys r.user_address d = some r
  /-- a per-date vector never holds two records for the same account -/
  uniq : ∀ d, ((recsAt sys d).map AttendanceRecord.user_address).Nodup
  /-- the designated admin is registered with role Admin -/
  adminReg : ∃ au, tGet? sys.users sys.admin = some au ∧
    au.user_type = USER_TYPE_ADMIN
  /-- nobody but the designated admin ever has role Admin -/
  adminOnly : ∀ a u, tGet? sys.users a = some u →
    u.user_type = USER_TYPE_ADMIN → a = sys.admin

/-! ## Characterisation of successful calls -/

/-- The `AttendanceRecord` constructed by `mark_attendance`. -/
def markedRec (now : Nat) (marker_addr user_address : Addr) (date : String)
    (is_present : Bool) : AttendanceRecord :=
  { user_address := user_address, date := date, check_in_time := now,
    check_out_time := 0, is_present := is_present, marked_by := marker_addr }

/-- The resource value after a successful `register_user`. -/
def sysAfterReg (now : Nat) (a : Addr) (n : String) (ty : Nat)
    (sys : AttendanceSystem) : AttendanceSystem :=
  { sys with
    users := tAdd sys.users a
      { address := a, name := n, user_type := ty, registration_time := now },
    daily_attendance := tAdd sys.daily_attendance a [],
    user_registration_events := sys.user_registration_events ++
      [{ user_address := a, name := n, user_type := ty, timestamp := now }] }

/-- The resource value after a successful `mark_attendance` (with `ua` the
prior per-account sub-table of the subject). -/
def sysAfterMark (now : Nat) (m u : Addr) (d : String) (p : Bool)
    (sys : AttendanceSystem) (ua : Table String AttendanceRecord) :
    AttendanceSystem :=
  let records0 := if tContains sys.attendance_records d then sys.attendance_records
    else tAdd sys.attendance_records d []
  { sys with
    daily_attendance := tSet sys.daily_attendance u
      (tAdd ua d (markedRec now m u d p)),
    attendance_records := tSet records0 d
      ((tGet? records0 d).getD [] ++ [markedRec now m u d p]),
    attendance_marked_events := sys.attendance_marked_events ++
      [{ user_address := u, date := d, check_in_time := now, is_present := p,
         marked_by := m, timestamp := now }] }

/-- The resource value after a successful `mark_checkout` (with `ua` the
prior per-account sub-table, `r` the prior record and `drs` the prior
per-date vector). -/
def sysAfterCheckout (now : Nat) (u : Addr) (d : String)
    (sys : AttendanceSystem) (ua : Table String AttendanceRecord)
    (r : AttendanceRecord) (drs : List AttendanceRecord) : AttendanceSystem :=
  { sys with
    daily_attendance := tSet sys.daily_attendance u
      (tSet ua d { r with check_out_time := now }),
    attendance_records := tSet sys.attendance_records d
      (updateFirst now u drs) }

theorem initSystem_ok {now : Nat} {a : Addr} {st st' : Storage}
    (h : initSystem now a st = .ok st') :
    tContains st a = false ∧ st' = tAdd st a (initSysVal now a) := by
  unfold initSystem at h
  split at h
  · exact absurd h (by simp)
  · next hc => exact ⟨by simpa using hc, by simpa using h.symm⟩

theorem register_user_ok {now : Nat} {a : Addr} {n : String} {ty : Nat}
    {st st' : Storage} (h : register_user now a n ty st = .ok st') :
    ∃ sys, tGet? st wenidi_addr = some sys ∧
      (ty = USER_TYPE_STUDENT ∨ ty = USER_TYPE_TEACHER) ∧
      tContains sys.users a = false ∧
      st' = tSet st wenidi_addr (sysAfterReg now a n ty sys) := by
  unfold register_user at h
  split at h
  · exact absurd h (by simp)
  · next sys hsys =>
    split at h
    · next hty =>
      split at h
      · exact absurd h (by simp)
      · next hc =>
        refine ⟨sys, hsys, hty, by simpa using hc, ?_⟩
        simp only [Except.ok.injEq] at h
        exact h.symm
    · exact absurd h (by simp)

theorem mark_attendance_ok {now : Nat} {m u : Addr} {d : String} {p : Bool}
    {st st' : Storage} (h : mark_attendance now m u d p st = .ok st') :
    ∃ sys ua, tGet? st wenidi_addr = some sys ∧
      (m = u ∨ is_admin m sys.users ∨ is_teacher m sys.users) ∧
      tContains sys.users u = true ∧
      tGet? sys.daily_attendance u = some ua ∧
      tContains ua d = false ∧
      st' = tSet st wenidi_addr (sysAfterMark now m u d p sys ua) := by
  unfold mark_attendance at h
  split at h
  · exact absurd h (by simp)
  · next sys hsys =>
    split at h
    · next hauth =>
      split at h
      · next hu =>
        split at h
        · exact absurd h (by simp)
        · next ua hua =>
          split at h
          · exact absurd h (by simp)
          · next hd =>
            refine ⟨sys, ua, hsys, hauth, hu, hua, by simpa using hd, ?_⟩
            simp only [Except.ok.injEq] at h
            exact h.symm
      · exact absurd h (by simp)
    · exact absurd h (by simp)

theorem mark_checkout_ok {now : Nat} {u : Addr} {d : String} {st st' : Storage}
    (h : mark_checkout now u d st = .ok st') :
    ∃ sys ua r drs, tGet? st wenidi_addr = some sys ∧
      tGet? sys.daily_attendance u = some ua ∧
      tGet? ua d = some r ∧
      tGet? sys.attendance_records d = some drs ∧
      st' = tSet st wenidi_addr (sysAfterCheckout now u d sys ua r drs) := by
  unfold mark_checkout at h
  split at h
  · exact absurd h (by simp)
  · next sys hsys =>
    split at h
    · exact absurd h (by simp)
    · next ua hua =>
      split at h
      · exact absurd h (by simp)
      · next r hr =>
        dsimp only [] at h
        split at h
        · exact absurd h (by simp)
        · next drs hdrs =>
          refine ⟨sys, ua, r, drs, hsys, hua, hr, hdrs, ?_⟩
          simp only [Except.ok.injEq] at h
          rw [← h]
          rfl

/-! ## Index views of the successor states -/

theorem recsAt_sysAfterReg (now : Nat) (a : Addr) (n : String) (ty : Nat)
    (sys : AttendanceSystem) (d' : String) :
    recsAt (sysAfterReg now a n ty sys) d' = recsAt sys d' := rfl

theorem dailyAt_sysAfterReg (now : Nat) (a : Addr) (n : String) (ty : Nat)
    (sys : AttendanceSystem) (u' : Addr) (d' : String) :
    dailyAt (sysAfterReg now a n ty sys) u' d' =
      if u' = a then none else dailyAt sys u' d' := by
  unfold sysAfterReg dailyAt
  dsimp only []
  rw [tGet?_tAdd]
  by_cases hu : u' = a <;> simp [hu, tGet?]

theorem recsAt_sysAfterMark (now : Nat) (m u : Addr) (d : String) (p : Bool)
    (sys : AttendanceSystem) (ua : Table String AttendanceRecord) (d' : String) :
    recsAt (sysAfterMark now m u d p sys ua) d' =
      if d' = d then recsAt sys d' ++ [markedRec now m u d p]
      else recsAt sys d' := by
  unfold sysAfterMark recsAt
  dsimp only []
  by_cases hc : tContains sys.attendance_records d
  · rw [if_pos hc]
    by_cases hd : d' = d
    · subst hd
      rw [tGet?_tSet_self _ hc, if_pos rfl]
      rfl
    · rw [tGet?_tSet_ne _ _ _ _ hd, if_neg hd]
  · rw [if_neg hc]
    have hnone : tGet? sys.attendance_records d = none := by
      cases hx : tGet? sys.attendance_records d with
      | none => rfl
      | some l => simp [tContains, hx] at hc
    by_cases hd : d' = d
    · subst hd
      have hc2 : tContains (tAdd sys.attendance_records d'
          ([] : List AttendanceRecord)) d' = true := by
        simp [tContains_tAdd]
      rw [tGet?_tSet_self _ hc2, if_pos rfl, tGet?_tAdd, if_pos rfl, hnone]
      rfl
    · rw [tGet?_tSet_ne _ _ _ _ hd, tGet?_tAdd, if_neg hd, if_neg hd]

theorem dailyAt_sysAfterMark (now : Nat) (m u : Addr) (d : String) (p : Bool)
    (sys : AttendanceSystem) (ua : Table String AttendanceRecord)
    (hua : tGet? sys.daily_attendance u = some ua) (u' : Addr) (d' : String) :
    dailyAt (sysAfterMark now m u d p sys ua) u' d' =
      if u' = u then
        (if d' = d then some (markedRec now m u d p) else tGet? ua d')
      else dailyAt sys u' d' := by
  unfold sysAfterMark dailyAt
  dsimp only []
  by_cases hu : u' = u
  · subst hu
    rw [tGet?_tSet_self _ (by simp [tContains, hua])]
    dsimp only []
    rw [tGet?_tAdd, if_pos rfl]
  · rw [tGet?_tSet_ne _ _ _ _ hu, if_neg hu]

theorem recsAt_sysAfterCheckout (now : Nat) (u : Addr) (d : String)
    (sys : AttendanceSystem) (ua : Table String AttendanceRecord)
    (r : AttendanceRecord) (drs : List AttendanceRecord)
    (hdrs : tGet? sys.attendance_records d = some drs) (d' : String) :
    recsAt (sysAfterCheckout now u d sys ua r drs) d' =
      if d' = d then updateFirst now u drs else recsAt sys d' := by
  unfold sysAfterCheckout recsAt
  dsimp only []
  by_cases hd : d' = d
  · subst hd
    rw [tGet?_tSet_self _ (by simp [tContains, hdrs]), if_pos rfl]
    rfl
  · rw [tGet?_tSet_ne _ _ _ _ hd, if_neg hd]

theorem dailyAt_sysAfterCheckout (now : Nat) (u : Addr) (d : String)
    (sys : AttendanceSystem) (ua : Table String AttendanceRecord)
    (r : AttendanceRecord) (drs : List AttendanceRecord)
    (hua : tGet? sys.daily_attendance u = some ua)
    (hr : tGet? ua d = some r) (u' : Addr) (d' : String) :
    dailyAt (sysAfterCheckout now u d sys ua r drs) u' d' =
      if u' = u then
        (if d' = d then some { r with check_out_time := now } else tGet? ua d')
      else dailyAt sys u' d' := by
  unfold sysAfterCheckout dailyAt
  dsimp only []
  by_cases hu : u' = u
  · subst hu
    rw [tGet?_tSet_self _ (by simp [tContains, hua])]
    dsimp only []
    rw [if_pos rfl]
    by_cases hd : d' = d
    · subst hd
      rw [tGet?_tSet_self _ (by simp [tContains, hr]), if_pos rfl]
    · rw [tGet?_tSet_ne _ _ _ _ hd, if_neg hd]
  · rw [tGet?_tSet_ne _ _ _ _ hu, if_neg hu]

/-! ## Properties of the checkout scan -/

theorem updateFirst_eq_map (now : Nat) (u : Addr) (l : List AttendanceRecord)
    (hnd : (l.map AttendanceRecord.user_address).Nodup) :
    updateFirst now u l =
      l.map (fun x => if x.user_address = u then
        { x with check_out_time := now } else x) := by
  induction l with
  | nil => rfl
  | cons x xs ih =>
    simp only [List.map_cons, List.nodup_cons] at hnd
    obtain ⟨hx, hxs⟩ := hnd
    by_cases hxu : x.user_address = u
    · rw [updateFirst, if_pos hxu]
      simp only [List.map_cons, if_pos hxu]
      congr 1
      have hall : ∀ y ∈ xs, (fun x => if x.user_address = u then
          { x with check_out_time := now } else x) y = id y := by
        intro y hy
        have hyne : y.user_address ≠ u := by
          intro hyu
          apply hx
          have hmem : y.user_address ∈ xs.map AttendanceRecord.user_address :=
            List.mem_map_of_mem _ hy
          rwa [hyu, ← hxu] at hmem
        simp [hyne]
      rw [List.map_congr_left hall, List.map_id]
    · rw [updateFirst, if_neg hxu]
      simp only [List.map_cons, if_neg hxu]
      rw [ih hxs]

theorem user_address_map_checkout (now : Nat) (u : Addr)
    (l : List AttendanceRecord) :
    (l.map (fun x => if x.user_address = u then
        { x with check_out_time := now } else x)).map
      AttendanceRecord.user_address = l.map AttendanceRecord.user_address := by
  rw [List.map_map]
  apply List.map_congr_left
  intro y _
  by_cases hy : y.user_address = u <;> simp [hy]

/-! ## Preservation of the invariant -/

theorem dailyAt_some_contains {sys : AttendanceSystem} {u : Addr} {d : String}
    {r : AttendanceRecord} (h : dailyAt sys u d = some r) :
    tContains sys.daily_attendance u = true := by
  unfold dailyAt at h
  cases hx : tGet? sys.daily_attendance u with
  | none => rw [hx] at h; cases h
  | some ua => simp [tContains, hx]

theorem records_key_of_daily {sys : AttendanceSystem} (hinv : SysInv sys)
    {u : Addr} {d : String} {r : AttendanceRecord} (h : dailyAt sys u d = some r) :
    ∃ drs, tGet? sys.attendance_records d = some drs := by
  have hmem := (hinv.d2r u d r h).1
  unfold recsAt at hmem
  cases hx : tGet? sys.attendance_records d with
  | none => rw [hx] at hmem; simp at hmem
  | some l => exact ⟨l, rfl⟩

theorem sysInv_initSysVal (now : Nat) (a : Addr) : SysInv (initSysVal now a) := by
  constructor
  · intro x
    by_cases hx : x = a <;> simp [initSysVal, tAdd, tContains, tGet?, hx]
  · intro u d r h
    unfold dailyAt initSysVal at h
    dsimp only [tAdd] at h
    by_cases hu : u = a <;> simp [tGet?, hu] at h
  · intro d r hr
    simp [recsAt, initSysVal, tGet?] at hr
  · intro d
    simp [recsAt, initSysVal, tGet?]
  · exact ⟨⟨a, "System Admin", USER_TYPE_ADMIN, now⟩,
      by simp [initSysVal, tAdd, tGet?], rfl⟩
  · intro x u hx _
    have hx' : tGet? (tAdd ([] : Table Addr User) a
        { address := a, name := "System Admin", user_type := USER_TYPE_ADMIN,
          registration_time := now }) x = some u := hx
    rw [tGet?_tAdd] at hx'
    show x = a
    by_cases hxa : x = a
    · exact hxa
    · rw [if_neg hxa] at hx'
      exact absurd hx' (by simp [tGet?])

theorem sysInv_sysAfterReg (now : Nat) (a : Addr) (n : String) (ty : Nat)
    (sys : AttendanceSystem) (hinv : SysInv sys)
    (hty : ty = USER_TYPE_STUDENT ∨ ty = USER_TYPE_TEACHER)
    (hfresh : tContains sys.users a = false) :
    SysInv (sysAfterReg now a n ty sys) := by
  have hadmin_ne : sys.admin ≠ a := by
    intro he
    obtain ⟨au, hau, _⟩ := hinv.adminReg
    rw [he] at hau
    simp [tContains, hau] at hfresh
  constructor
  · intro x
    show tContains (tAdd sys.users a _) x = tContains (tAdd sys.daily_attendance a _) x
    rw [tContains_tAdd, tContains_tAdd, hinv.keys x]
  · intro u d r h
    rw [dailyAt_sysAfterReg] at h
    by_cases hu : u = a
    · rw [if_pos hu] at h; cases h
    · rw [if_neg hu] at h
      exact (hinv.d2r u d r h)
  · intro d r hr
    rw [recsAt_sysAfterReg] at hr
    have hold := hinv.r2d d r hr
    rw [dailyAt_sysAfterReg]
    have hne : r.user_address ≠ a := by
      intro he
      have hc : tContains sys.daily_attendance a = true := by
        rw [← he]; exact dailyAt_some_contains hold
      rw [← hinv.keys a] at hc
      rw [hc] at hfresh
      cases hfresh
    rw [if_neg hne]
    exact hold
  · intro d
    rw [recsAt_sysAfterReg]
    exact hinv.uniq d
  · obtain ⟨au, hau, hty3⟩ := hinv.adminReg
    refine ⟨au, ?_, hty3⟩
    show tGet? (tAdd sys.users a _) sys.admin = some au
    rw [tGet?_tAdd, if_neg hadmin_ne]
    exact hau
  · intro x u hx hty3
    have hx' : tGet? (tAdd sys.users a
        { address := a, name := n, user_type := ty, registration_time := now }) x =
        some u := hx
    rw [tGet?_tAdd] at hx'
    by_cases hxa : x = a
    · rw [if_pos hxa] at hx'
      injection hx' with he
      rw [← he] at hty3
      dsimp only [] at hty3
      rcases hty with h1 | h1 <;> rw [h1] at hty3 <;>
        simp [USER_TYPE_STUDENT, USER_TYPE_TEACHER, USER_TYPE_ADMIN] at hty3
    · rw [if_neg hxa] at hx'
      exact hinv.adminOnly x u hx' hty3

theorem sysInv_sysAfterMark (now : Nat) (m u : Addr) (d : String) (p : Bool)
    (sys : AttendanceSystem) (ua : Table String AttendanceRecord)
    (hinv : SysInv sys)
    (hua : tGet? sys.daily_attendance u = some ua)
    (hd : tContains ua d = false) :
    SysInv (sysAfterMark now m u d p sys ua) := by
  have hget_none : tGet? ua d = none := by
    cases hx : tGet? ua d with
    | none => rfl
    | some r => simp [tContains, hx] at hd
  have hdaily_none : dailyAt sys u d = none := by
    unfold dailyAt
    rw [hua]
    exact hget_none
  have hno_user : ∀ r ∈ recsAt sys d, r.user_address ≠ u := by
    intro r hr he
    have hx := hinv.r2d d r hr
    rw [he, hdaily_none] at hx
    cases hx
  constructor
  · intro x
    show tContains sys.users x = tContains (tSet sys.daily_attendance u _) x
    rw [tContains_tSet, hinv.keys x]
  · intro u' d' r h
    rw [dailyAt_sysAfterMark now m u d p sys ua hua] at h
    rw [recsAt_sysAfterMark]
    by_cases hu' : u' = u
    · subst hu'
      rw [if_pos rfl] at h
      by_cases hd' : d' = d
      · subst hd'
        rw [if_pos rfl] at h
        injection h with h
        rw [if_pos rfl, ← h]
        exact ⟨List.mem_append_right _ (by simp), rfl, rfl⟩
      · rw [if_neg hd'] at h
        have hold : dailyAt sys u' d' = some r := by
          unfold dailyAt
          rw [hua]
          exact h
        rw [if_neg hd']
        exact hinv.d2r u' d' r hold
    · rw [if_neg hu'] at h
      have hold := hinv.d2r u' d' r h
      by_cases hd' : d' = d
      · subst hd'
        rw [if_pos rfl]
        exact ⟨List.mem_append_left _ hold.1, hold.2⟩
      · rw [if_neg hd']
        exact hold
  · intro d' r hr
    rw [recsAt_sysAfterMark] at hr
    rw [dailyAt_sysAfterMark now m u d p sys ua hua]
    by_cases hd' : d' = d
    · subst hd'
      rw [if_pos rfl] at hr
      rcases List.mem_append.1 hr with hold | hnew
      · have hru : r.user_address ≠ u := hno_user r hold
        rw [if_neg hru]
        exact hinv.r2d d' r hold
      · have hr_eq : r = markedRec now m u d' p := by simpa using hnew
        subst hr_eq
        simp [markedRec]
    · rw [if_neg hd'] at hr
      have hold := hinv.r2d d' r hr
      by_cases hru : r.user_address = u
      · rw [if_pos hru, if_neg hd']
        rw [hru] at hold
        unfold dailyAt at hold
        rw [hua] at hold
        exact hold
      · rw [if_neg hru]
        exact hold
  · intro d'
    rw [recsAt_sysAfterMark]
    by_cases hd' : d' = d
    · subst hd'
      rw [if_pos rfl, List.map_append]
      apply List.Nodup.append (hinv.uniq d')
      · simp
      · intro x hx hx'
        simp only [List.map_cons, List.map_nil, List.mem_singleton] at hx'
        obtain ⟨r, hr, hrx⟩ := List.mem_map.1 hx
        apply hno_user r hr
        rw [hrx, hx']
        rfl
    · rw [if_neg hd']
      exact hinv.uniq d'
  · exact hinv.adminReg
  · exact hinv.adminOnly

theorem sysInv_sysAfterCheckout (now : Nat) (u : Addr) (d : String)
    (sys : AttendanceSystem) (ua : Table String AttendanceRecord)
    (r : AttendanceRecord) (drs : List AttendanceRecord)
    (hinv : SysInv sys)
    (hua : tGet? sys.daily_attendance u = some ua)
    (hr : tGet? ua d = some r)
    (hdrs : tGet? sys.attendance_records d = some drs) :
    SysInv (sysAfterCheckout now u d sys ua r drs) := by
  have hdaily : dailyAt sys u d = some r := by
    unfold dailyAt
    rw [hua]
    exact hr
  obtain ⟨hrmem, hru, hrd⟩ := hinv.d2r u d r hdaily
  have hrecs_eq : recsAt sys d = drs := by
    unfold recsAt
    rw [hdrs]
    rfl
  have hnd : (drs.map AttendanceRecord.user_address).Nodup := by
    rw [← hrecs_eq]
    exact hinv.uniq d
  have hupd := updateFirst_eq_map now u drs hnd
  have hrdrs : r ∈ drs := hrecs_eq ▸ hrmem
  have huniq_elem : ∀ x ∈ drs, x.user_address = u → x = r := by
    intro x hx hxu
    exact List.inj_on_of_nodup_map hnd hx hrdrs (by rw [hxu, hru])
  constructor
  · intro x
    show tContains sys.users x = tContains (tSet sys.daily_attendance u _) x
    rw [tContains_tSet, hinv.keys x]
  · intro u' d' rr h
    rw [dailyAt_sysAfterCheckout now u d sys ua r drs hua hr] at h
    rw [recsAt_sysAfterCheckout now u d sys ua r drs hdrs]
    by_cases hu' : u' = u
    · subst hu'
      rw [if_pos rfl] at h
      by_cases hd' : d' = d
      · subst hd'
        rw [if_pos rfl] at h
        injection h with h
        rw [if_pos rfl, hupd, ← h]
        refine ⟨List.mem_map.2 ⟨r, hrdrs, ?_⟩, hru, hrd⟩
        rw [if_pos hru]
      · rw [if_neg hd'] at h
        have hold : dailyAt sys u' d' = some rr := by
          unfold dailyAt
          rw [hua]
          exact h
        rw [if_neg hd']
        exact hinv.d2r u' d' rr hold
    · rw [if_neg hu'] at h
      obtain ⟨hmem', hru', hrd'⟩ := hinv.d2r u' d' rr h
      by_cases hd' : d' = d
      · subst hd'
        rw [if_pos rfl, hupd]
        have hne : rr.user_address ≠ u := by rw [hru']; exact hu'
        refine ⟨List.mem_map.2 ⟨rr, hrecs_eq ▸ hmem', ?_⟩, hru', hrd'⟩
        rw [if_neg hne]
      · rw [if_neg hd']
        exact ⟨hmem', hru', hrd'⟩
  · intro d' rr hrr
    rw [recsAt_sysAfterCheckout now u d sys ua r drs hdrs] at hrr
    rw [dailyAt_sysAfterCheckout now u d sys ua r drs hua hr]
    by_cases hd' : d' = d
    · subst hd'
      rw [if_pos rfl, hupd] at hrr
      obtain ⟨x, hx, hfx⟩ := List.mem_map.1 hrr
      by_cases hxu : x.user_address = u
      · have hx_eq : x = r := huniq_elem x hx hxu
        subst hx_eq
        rw [if_pos hxu] at hfx
        rw [← hfx]
        have : ({ x with check_out_time := now } : AttendanceRecord).user_address
            = u := hxu
        rw [if_pos this, if_pos rfl]
      · rw [if_neg hxu] at hfx
        subst hfx
        rw [if_neg hxu]
        exact hinv.r2d d' x (hrecs_eq ▸ hx)
    · rw [if_neg hd'] at hrr
      have hold := hinv.r2d d' rr hrr
      by_cases hrru : rr.user_address = u
      · rw [if_pos hrru, if_neg hd']
        rw [hrru] at hold
        unfold dailyAt at hold
        rw [hua] at hold
        exact hold
      · rw [if_neg hrru]
        exact hold
  · intro d'
    rw [recsAt_sysAfterCheckout now u d sys ua r drs hdrs]
    by_cases hd' : d' = d
    · subst hd'
      rw [if_pos rfl, hupd, user_address_map_checkout]
      exact hnd
    · rw [if_neg hd']
      exact hinv.uniq d'
  · exact hinv.adminReg
  · exact hinv.adminOnly

/-- Every resource in a reachable storage satisfies the invariant. -/
theorem reachable_sysInv {st : Storage} (h : Reachable st) :
    ∀ a sys, tGet? st a = some sys → SysInv sys := by
  induction h with
  | empty =>
    intro a sys hget
    cases hget
  | step c st st' hreach hexec ih =>
    intro a sys hget
    cases c with
    | initCall now0 a0 =>
      obtain ⟨hfresh, hst'⟩ := initSystem_ok hexec
      subst hst'
      rw [tGet?_tAdd] at hget
      by_cases ha : a = a0
      · rw [if_pos ha] at hget
        injection hget with hget
        rw [← hget]
        exact sysInv_initSysVal now0 a0
      · rw [if_neg ha] at hget
        exact ih a sys hget
    | reg now0 a0 n ty =>
      obtain ⟨sys0, hsys0, hty, hfresh, hst'⟩ := register_user_ok hexec
      subst hst'
      by_cases ha : a = wenidi_addr
      · subst ha
        rw [tGet?_tSet_self _ (by simp [tContains, hsys0])] at hget
        injection hget with hget
        rw [← hget]
        exact sysInv_sysAfterReg now0 a0 n ty sys0 (ih _ _ hsys0) hty hfresh
      · rw [tGet?_tSet_ne _ _ _ _ ha] at hget
        exact ih a sys hget
    | mark now0 m u d p =>
      obtain ⟨sys0, ua, hsys0, hauth, hu, hua, hfree, hst'⟩ :=
        mark_attendance_ok hexec
      subst hst'
      by_cases ha : a = wenidi_addr
      · subst ha
        rw [tGet?_tSet_self _ (by simp [tContains, hsys0])] at hget
        injection hget with hget
        rw [← hget]
        exact sysInv_sysAfterMark now0 m u d p sys0 ua (ih _ _ hsys0) hua hfree
      · rw [tGet?_tSet_ne _ _ _ _ ha] at hget
        exact ih a sys hget
    | checkout now0 u d =>
      obtain ⟨sys0, ua, r, drs, hsys0, hua, hr, hdrs, hst'⟩ :=
        mark_checkout_ok hexec
      subst hst'
      by_cases ha : a = wenidi_addr
      · subst ha
        rw [tGet?_tSet_self _ (by simp [tContains, hsys0])] at hget
        injection hget with hget
        rw [← hget]
        exact sysInv_sysAfterCheckout now0 u d sys0 ua r drs (ih _ _ hsys0)
          hua hr hdrs
      · rw [tGet?_tSet_ne _ _ _ _ ha] at hget
        exact ih a sys hget

/-! ## A concrete history used by the witnesses

Admin `0` (= `wenidi_addr`) initialises at time 5; student `1` ("Alice")
registers at 6; teacher `2` ("Bob") registers at 7; the teacher marks the
student present on `"2024-01-10"` at 8; the student checks out at 9. -/

/-- The committed storage of a call (callers below only use it on calls
that succeed). -/
def okD (r : Except (MoveAbort × Storage) Storage) : Storage :=
  match r with
  | .ok s => s
  | .error e => e.2

def stW1 : Storage := okD (initSystem 5 wenidi_addr [])

def stW2 : Storage := okD (register_user 6 1 "Alice" USER_TYPE_STUDENT stW1)

def stW3 : Storage := okD (register_user 7 2 "Bob" USER_TYPE_TEACHER stW2)

def stW4 : Storage := okD (mark_attendance 8 2 1 "2024-01-10" true stW3)

def stW5 : Storage := okD (mark_checkout 9 1 "2024-01-10" stW4)

/-- The resource at `wenidi_addr` (for naming concrete systems in witness
statements; the scenario storages all hold one). -/
def sysAt (st : Storage) : AttendanceSystem :=
  (tGet? st wenidi_addr).getD (initSysVal 0 0)

theorem reachable_stW1 : Reachable stW1 :=
  Reachable.step (.initCall 5 wenidi_addr) [] stW1 Reachable.empty (by rfl)

theorem reachable_stW2 : Reachable stW2 :=
  Reachable.step (.reg 6 1 "Alice" USER_TYPE_STUDENT) stW1 stW2 reachable_stW1
    (by rfl)

theorem reachable_stW3 : Reachable stW3 :=
  Reachable.step (.reg 7 2 "Bob" USER_TYPE_TEACHER) stW2 stW3 reachable_stW2
    (by rfl)

theorem reachable_stW4 : Reachable stW4 :=
  Reachable.step (.mark 8 2 1 "2024-01-10" true) stW3 stW4 reachable_stW3
    (by rfl)

theorem reachable_stW5 : Reachable stW5 :=
  Reachable.step (.checkout 9 1 "2024-01-10") stW4 stW5 reachable_stW4
    (by rfl)

/-! ## The claims -/

/-- Claim C1: for every (account, date) pair at most one record exists —
after a successful `mark_attendance` for `(u, d)`, a second call for the
same pair by any authorised marker aborts with
`E_ATTENDANCE_ALREADY_MARKED` carrying the state unchanged (so the original
record survives), and the original record — check-in time, presence flag
and `marked_by` included — is still what both indices report. -/
theorem C1_second_mark_rejected
    (now now2 : Nat) (m m2 u : Addr) (d : String) (p p2 : Bool)
    (st st' : Storage)
    (h : mark_attendance now m u d p st = .ok st')
    (hauth : ∀ sys', tGet? st' wenidi_addr = some sys' →
      (m2 = u ∨ is_admin m2 sys'.users ∨ is_teacher m2 sys'.users)) :
    mark_attendance now2 m2 u d p2 st' =
      .error (.code E_ATTENDANCE_ALREADY_MARKED, st') ∧
    get_user_attendance u d st' = .ok (markedRec now m u d p) ∧
    (∀ sys', tGet? st' wenidi_addr = some sys' →
      markedRec now m u d p ∈ recsAt sys' d) := by
  obtain ⟨sys, ua, hsys, hauth0, hu, hua, hfree, hst'⟩ := mark_attendance_ok h
  have hget' : tGet? st' wenidi_addr = some (sysAfterMark now m u d p sys ua) := by
    rw [hst']
    exact tGet?_tSet_self _ (by simp [tContains, hsys])
  have hdaily : tGet? (sysAfterMark now m u d p sys ua).daily_attendance u
      = some (tAdd ua d (markedRec now m u d p)) := by
    show tGet? (tSet sys.daily_attendance u _) u = _
    exact tGet?_tSet_self _ (by simp [tContains, hua])
  refine ⟨?_, ?_, ?_⟩
  · unfold mark_attendance
    rw [hget']
    dsimp only []
    rw [if_pos (hauth _ hget')]
    rw [if_pos (show tContains (sysAfterMark now m u d p sys ua).users u = true
      from hu)]
    rw [hdaily]
    dsimp only []
    rw [if_pos (show tContains (tAdd ua d (markedRec now m u d p)) d = true by
      simp [tContains_tAdd])]
  · unfold get_user_attendance
    rw [hget']
    dsimp only []
    rw [hdaily]
    dsimp only []
    rw [tGet?_tAdd, if_pos rfl]
  · intro sys' hget''
    rw [hget'] at hget''
    injection hget'' with hget''
    rw [← hget'', recsAt_sysAfterMark, if_pos rfl]
    simp

/-- Witness for C1 on the concrete history: the student re-marking their
own attendance for the already-marked date fails `AlreadyMarked`, and the
teacher's original record is still what the per-account index reports. -/
theorem C1_witness :
    mark_attendance 10 1 1 "2024-01-10" false stW4 =
      .error (.code E_ATTENDANCE_ALREADY_MARKED, stW4) ∧
    get_user_attendance 1 "2024-01-10" stW4 =
      .ok (markedRec 8 2 1 "2024-01-10" true) := by
  have h := C1_second_mark_rejected 8 10 2 1 1 "2024-01-10" true false stW3 stW4
    (by rfl) (fun sys' hs => Or.inl rfl)
  exact ⟨h.1, h.2.1⟩

/-- Claim C2: dual-write consistency — in every reachable state the
per-date sequence index (`attendance_records`) and the per-account map
index (`daily_attendance`) hold the same logical records: every record of
the per-account index occurs in the per-date vector of its date (keyed
consistently with its own fields), and every record of a per-date vector
is exactly the per-account record of its subject for that date.  Since
every successful `mark_attendance` / `mark_checkout` leads from a
reachable state to a reachable state, neither index is ever updated
without the other. -/
theorem C2_dual_write_invariant (st : Storage) (hreach : Reachable st)
    (a : Addr) (sys : AttendanceSystem) (hget : tGet? st a = some sys) :
    (∀ u d r, dailyAt sys u d = some r →
      r ∈ recsAt sys d ∧ r.user_address = u ∧ r.date = d) ∧
    (∀ d r, r ∈ recsAt sys d → dailyAt sys r.user_address d = some r) := by
  have hinv := reachable_sysInv hreach a sys hget
  exact ⟨hinv.d2r, hinv.r2d⟩

/-- Witness for C2 on the concrete history: the record the teacher created
is reported identically by both indices of the reachable state `stW4`. -/
theorem C2_witness :
    Reachable stW4 ∧
    markedRec 8 2 1 "2024-01-10" true ∈ recsAt (sysAt stW4) "2024-01-10" ∧
    dailyAt (sysAt stW4) 1 "2024-01-10" =
      some (markedRec 8 2 1 "2024-01-10" true) := by
  refine ⟨reachable_stW4, ?_, by rfl⟩
  have h := (C2_dual_write_invariant stW4 reachable_stW4 wenidi_addr
    (sysAt stW4) (by rfl)).1 1 "2024-01-10"
    (markedRec 8 2 1 "2024-01-10" true) (by rfl)
  exact h.1

/-- Claim C10: implicit key-set invariant — in every reachable state the
key set of `daily_attendance` equals the key set of `users`; in
particular every registered account has a per-account sub-table, which is
what makes the unguarded `borrow_mut` in `mark_attendance` safe. -/
theorem C10_key_set_invariant (st : Storage) (hreach : Reachable st)
    (a : Addr) (sys : AttendanceSystem) (hget : tGet? st a = some sys) :
    (∀ x, tContains sys.users x = tContains sys.daily_attendance x) ∧
    (∀ u, tContains sys.users u = true →
      (tGet? sys.daily_attendance u).isSome = true) := by
  have hinv := reachable_sysInv hreach a sys hget
  refine ⟨hinv.keys, fun u hu => ?_⟩
  have hx := hinv.keys u
  rw [hu] at hx
  exact hx.symm

/-- Witness for C10 on the concrete history: in `stW4` the registered
student `1` has a per-account sub-table, and an unregistered address `7`
is absent from both stores alike. -/
theorem C10_witness :
    Reachable stW4 ∧
    tContains (sysAt stW4).users 1 = tContains (sysAt stW4).daily_attendance 1 ∧
    tContains (sysAt stW4).users 7 = tContains (sysAt stW4).daily_attendance 7 := by
  have h := C10_key_set_invariant stW4 reachable_stW4 wenidi_addr
    (sysAt stW4) (by rfl)
  exact ⟨reachable_stW4, h.1 1, h.1 7⟩

/-- Claim C3: `mark_attendance` authorisation — with the resource present,
a caller that is neither the subject nor a registered Admin nor a
registered Teacher always aborts with `E_NOT_AUTHORIZED` carrying the
state unchanged (so no record is created in either index), and a caller
that satisfies the OR-composed rule never sees that abort code. -/
theorem C3_mark_attendance_authorization
    (now : Nat) (m u : Addr) (d : String) (p : Bool) (st : Storage)
    (sys : AttendanceSystem) (hsys : tGet? st wenidi_addr = some sys) :
    (¬(m = u ∨ is_admin m sys.users ∨ is_teacher m sys.users) →
      mark_attendance now m u d p st = .error (.code E_NOT_AUTHORIZED, st)) ∧
    ((m = u ∨ is_admin m sys.users ∨ is_teacher m sys.users) →
      ∀ e st2, mark_attendance now m u d p st = .error (e, st2) →
        e ≠ .code E_NOT_AUTHORIZED) := by
  constructor
  · intro hna
    unfold mark_attendance
    rw [hsys]
    dsimp only []
    rw [if_neg hna]
  · intro hauth e st2 herr
    unfold mark_attendance at herr
    rw [hsys] at herr
    dsimp only [] at herr
    rw [if_pos hauth] at herr
    split at herr
    · split at herr
      · simp only [Except.error.injEq, Prod.mk.injEq] at herr
        rw [← herr.1]
        decide
      · split at herr
        · simp only [Except.error.injEq, Prod.mk.injEq] at herr
          rw [← herr.1]
          decide
        · exact absurd herr (by simp)
    · simp only [Except.error.injEq, Prod.mk.injEq] at herr
      rw [← herr.1]
      decide

/-- Witness for C3 on the concrete history: the registered student `1`
trying to mark the teacher `2` fails `NotAuthorized` with the state
carried unchanged. -/
theorem C3_witness :
    mark_attendance 8 1 2 "2024-01-10" true stW3 =
      .error (.code E_NOT_AUTHORIZED, stW3) :=
  (C3_mark_attendance_authorization 8 1 2 "2024-01-10" true stW3 (sysAt stW3)
    (by rfl)).1 (by decide)

/-- Claim C5: register postcondition and non-idempotence — after a
successful `register_user(a, n, ty)` at time `now`, the account is
registered and `get_user_info` returns exactly `{a, n, ty, now}` (so its
registration timestamp equals — hence is at least — the clock at the
call); a second registration for the same address with a permitted role
fails `E_ALREADY_REGISTERED`, and any registration with a role outside
{Student, Teacher} fails `E_INVALID_USER_TYPE` (both carrying the state
unchanged). -/
theorem C5_register_postconditions
    (now : Nat) (a : Addr) (n : String) (ty : Nat) (st st' : Storage)
    (h : register_user now a n ty st = .ok st') :
    is_user_registered a st' = .ok true ∧
    get_user_info a st' = .ok ⟨a, n, ty, now⟩ ∧
    (∀ now2 n2 ty2, (ty2 = USER_TYPE_STUDENT ∨ ty2 = USER_TYPE_TEACHER) →
      register_user now2 a n2 ty2 st' =
        .error (.code E_ALREADY_REGISTERED, st')) ∧
    (∀ now3 n3 ty3 st3 sys3, tGet? st3 wenidi_addr = some sys3 →
      ¬(ty3 = USER_TYPE_STUDENT ∨ ty3 = USER_TYPE_TEACHER) →
      register_user now3 a n3 ty3 st3 =
        .error (.code E_INVALID_USER_TYPE, st3)) := by
  obtain ⟨sys, hsys, hty, hfresh, hst'⟩ := register_user_ok h
  have hget' : tGet? st' wenidi_addr = some (sysAfterReg now a n ty sys) := by
    rw [hst']
    exact tGet?_tSet_self _ (by simp [tContains, hsys])
  have hcontains : tContains (sysAfterReg now a n ty sys).users a = true := by
    show tContains (tAdd sys.users a _) a = true
    simp [tContains_tAdd]
  refine ⟨?_, ?_, ?_, ?_⟩
  · unfold is_user_registered
    rw [hget']
    dsimp only []
    rw [hcontains]
  · unfold get_user_info
    rw [hget']
    dsimp only []
    rw [show tGet? (sysAfterReg now a n ty sys).users a =
      some ⟨a, n, ty, now⟩ from by
        show tGet? (tAdd sys.users a _) a = _
        rw [tGet?_tAdd, if_pos rfl]]
  · intro now2 n2 ty2 hty2
    unfold register_user
    rw [hget']
    dsimp only []
    rw [if_pos hty2, if_pos hcontains]
  · intro now3 n3 ty3 st3 sys3 hsys3 hty3
    unfold register_user
    rw [hsys3]
    dsimp only []
    rw [if_neg hty3]

/-- Witness for C5 on the concrete history: Alice's registration at time 6
makes her registered with exactly the supplied data; a repeat registration
fails `AlreadyRegistered`; a role-3 (Admin) self-registration attempt
fails `InvalidRole`. -/
theorem C5_witness :
    is_user_registered 1 stW2 = .ok true ∧
    get_user_info 1 stW2 = .ok ⟨1, "Alice", USER_TYPE_STUDENT, 6⟩ ∧
    register_user 7 1 "Alice again" USER_TYPE_TEACHER stW2 =
      .error (.code E_ALREADY_REGISTERED, stW2) ∧
    register_user 7 1 "Eve" USER_TYPE_ADMIN stW1 =
      .error (.code E_INVALID_USER_TYPE, stW1) := by
  have h := C5_register_postconditions 6 1 "Alice" USER_TYPE_STUDENT stW1 stW2
    (by rfl)
  exact ⟨h.1, h.2.1, h.2.2.1 7 "Alice again" USER_TYPE_TEACHER (Or.inr rfl),
    h.2.2.2 7 "Eve" USER_TYPE_ADMIN stW1 (sysAt stW1) (by rfl) (by decide)⟩

/-- The storage produced by a second `initialize` issued by the fresh
signer `1` while the deployment's ledger already exists at `wenidi_addr`. -/
def stC6 : Storage := okD (initSystem 7 1 stW1)

/-- Claim C6 counterexample: with the deployment's ledger already present
at `wenidi_addr` (storage `stW1`), a second `initialize` by the distinct
signer `1` SUCCEEDS — it does not fail with the already-initialised abort —
because `move_to` only checks the signer's own address.  (The existing
ledger is left unchanged, but the claim's "always fails" is false.) -/
theorem C6_counterexample :
    tContains stW1 wenidi_addr = true ∧
    initSystem 7 1 stW1 = .ok stC6 ∧
    tGet? stC6 wenidi_addr = tGet? stW1 wenidi_addr := by
  exact ⟨by rfl, by rfl, by rfl⟩

/-- Claim C6 amended: `initialize` is at-most-once per *signer address*,
not per deployment — a repeat `initialize` by a signer that already holds
a ledger resource aborts with the resource-already-exists abort and
carries the storage unchanged, while an `initialize` by a signer without a
resource always succeeds, creating a fresh ledger at that signer's address
and leaving every other address's resource (in particular the deployment
ledger at `wenidi_addr`) unchanged. -/
theorem C6_init_once_amended (now : Nat) (a : Addr) (st : Storage) :
    (tContains st a = true →
      initSystem now a st = .error (.resourceAlreadyExists, st)) ∧
    (tContains st a = false →
      initSystem now a st = .ok (tAdd st a (initSysVal now a)) ∧
      ∀ x, x ≠ a → tGet? (tAdd st a (initSysVal now a)) x = tGet? st x) := by
  constructor
  · intro hc
    unfold initSystem
    rw [if_pos hc]
  · intro hc
    constructor
    · unfold initSystem
      rw [if_neg (by rw [hc]; exact Bool.false_ne_true)]
    · intro x hx
      rw [tGet?_tAdd, if_neg hx]

/-- Witness for C6 (amended) on the concrete history: the signer `0`
repeating its own `initialize` fails with the resource-already-exists
abort, while the fresh signer `1` succeeds and leaves the ledger at
`wenidi_addr` untouched. -/
theorem C6_witness :
    initSystem 7 wenidi_addr stW1 = .error (.resourceAlreadyExists, stW1) ∧
    initSystem 7 1 stW1 = .ok (tAdd stW1 1 (initSysVal 7 1)) ∧
    tGet? (tAdd stW1 1 (initSysVal 7 1)) wenidi_addr = tGet? stW1 wenidi_addr := by
  have h1 := (C6_init_once_amended 7 wenidi_addr stW1).1 (by rfl)
  have h2 := (C6_init_once_amended 7 1 stW1).2 (by rfl)
  exact ⟨h1, h2.1, h2.2 wenidi_addr (by decide)⟩

/-- The storage produced by an `initialize` issued by signer `3` (not the
module address) on top of the deployment's ledger. -/
def stC9 : Storage := okD (initSystem 11 3 stW1)

/-- Claim C9 counterexample: `initialize` by signer `3` succeeds, but
`get_user_info 3` — the `getAccount` view, which always reads the resource
at `wenidi_addr` — then fails with `E_USER_NOT_FOUND` instead of returning
the "System Admin" account, because the account was created inside a
ledger stored at address `3` where no view ever looks. -/
theorem C9_counterexample :
    initSystem 11 3 stW1 = .ok stC9 ∧
    get_user_info 3 stC9 = .error (.code E_USER_NOT_FOUND) := by
  exact ⟨by rfl, by rfl⟩

/-- Claim C9 amended: the Admin account created by a successful
`initialize` has the hard-coded name `"System Admin"`, role Admin, the
caller's address and the call-time registration timestamp — stored in the
ledger at the *caller's* address; `get_user_info(caller)` returns it
exactly when the caller is the module address `wenidi_addr`, where the
views look. -/
theorem C9_admin_account_amended (now : Nat) (a : Addr) (st st' : Storage)
    (h : initSystem now a st = .ok st') :
    tGet? st' a = some (initSysVal now a) ∧
    tGet? (initSysVal now a).users a =
      some ⟨a, "System Admin", USER_TYPE_ADMIN, now⟩ ∧
    (a = wenidi_addr →
      get_user_info a st' = .ok ⟨a, "System Admin", USER_TYPE_ADMIN, now⟩) := by
  obtain ⟨hfresh, hst'⟩ := initSystem_ok h
  have hget : tGet? st' a = some (initSysVal now a) := by
    rw [hst', tGet?_tAdd, if_pos rfl]
  have husers : tGet? (initSysVal now a).users a =
      some ⟨a, "System Admin", USER_TYPE_ADMIN, now⟩ := by
    show tGet? (tAdd ([] : Table Addr User) a
      ⟨a, "System Admin", USER_TYPE_ADMIN, now⟩) a = _
    rw [tGet?_tAdd, if_pos rfl]
  refine ⟨hget, husers, ?_⟩
  intro ha
  subst ha
  unfold get_user_info
  rw [hget]
  dsimp only []
  rw [husers]

/-- Witness for C9 (amended) on the concrete history: after the module
address `0` initialises at time 5, `get_user_info 0` returns the
hard-coded "System Admin" Admin account. -/
theorem C9_witness :
    get_user_info wenidi_addr stW1 =
      .ok ⟨wenidi_addr, "System Admin", USER_TYPE_ADMIN, 5⟩ :=
  (C9_admin_account_amended 5 wenidi_addr [] stW1 (by rfl)).2.2 rfl

/-- Claim C8: `get_all_attendance_by_date` is admin-only — in a reachable
state it fails `E_NOT_AUTHORIZED` for every caller other than the
registered Admin (the only account that can carry the Admin role is the
`admin` address), and for the Admin it returns exactly what
`get_daily_attendance` returns, including `[]` when the date key is
absent.  Both functions are reads: they return values, not states. -/
theorem C8_admin_only_report (st : Storage) (hreach : Reachable st)
    (sys : AttendanceSystem) (hsys : tGet? st wenidi_addr = some sys)
    (date : String) (caller : Addr) :
    (caller ≠ sys.admin →
      get_all_attendance_by_date date caller st =
        .error (.code E_NOT_AUTHORIZED)) ∧
    (caller = sys.admin →
      get_all_attendance_by_date date caller st =
        get_daily_attendance date st) ∧
    (tGet? sys.attendance_records date = none →
      get_daily_attendance date st = .ok []) := by
  have hinv := reachable_sysInv hreach wenidi_addr sys hsys
  have hiff : is_admin caller sys.users = true ↔ caller = sys.admin := by
    constructor
    · intro hadm
      unfold is_admin at hadm
      cases hx : tGet? sys.users caller with
      | none => rw [hx] at hadm; cases hadm
      | some uu =>
        rw [hx] at hadm
        dsimp only [] at hadm
        have ht2 : uu.user_type = USER_TYPE_ADMIN := by simpa using hadm
        exact hinv.adminOnly caller uu hx ht2
    · intro he
      subst he
      obtain ⟨au, hau, ht⟩ := hinv.adminReg
      unfold is_admin
      rw [hau]
      dsimp only []
      rw [ht]
      simp
  refine ⟨?_, ?_, ?_⟩
  · intro hne
    unfold get_all_attendance_by_date
    rw [hsys]
    dsimp only []
    rw [if_neg (fun hadm => hne (hiff.1 hadm))]
  · intro he
    unfold get_all_attendance_by_date get_daily_attendance
    rw [hsys]
    dsimp only []
    rw [if_pos (hiff.2 he)]
  · intro hnone
    unfold get_daily_attendance
    rw [hsys]
    dsimp only []
    rw [if_neg (by simp [tContains, hnone])]

/-- Witness for C8 on the concrete history: the student `1` is refused the
daily report, the admin `0` gets exactly `get_daily_attendance`, and an
unused date yields the empty sequence. -/
theorem C8_witness :
    get_all_attendance_by_date "2024-01-10" 1 stW4 =
      .error (.code E_NOT_AUTHORIZED) ∧
    get_all_attendance_by_date "2024-01-10" wenidi_addr stW4 =
      get_daily_attendance "2024-01-10" stW4 ∧
    get_daily_attendance "2024-02-02" stW4 = .ok [] := by
  have h1 := C8_admin_only_report stW4 reachable_stW4 (sysAt stW4) (by rfl)
    "2024-01-10" 1
  have h2 := C8_admin_only_report stW4 reachable_stW4 (sysAt stW4) (by rfl)
    "2024-01-10" wenidi_addr
  have h3 := C8_admin_only_report stW4 reachable_stW4 (sysAt stW4) (by rfl)
    "2024-02-02" wenidi_addr
  exact ⟨h1.1 (by decide), h2.2.1 (by rfl), h3.2.2 (by rfl)⟩

/-- Claim C4 counterexample: in the reachable state `stW4` the address `5`
has no attendance record for `"2024-01-10"` (it is not even registered),
yet its `mark_checkout` aborts with the smart-table missing-key abort —
not with the module's `E_USER_NOT_FOUND` (the code realising
`RecordNotFound`) — because the unguarded `borrow_mut` on
`daily_attendance` fires before the record check. -/
theorem C4_counterexample :
    dailyAt (sysAt stW4) 5 "2024-01-10" = none ∧
    mark_checkout 9 5 "2024-01-10" stW4 = .error (.tableMissingKey, stW4) ∧
    MoveAbort.tableMissingKey ≠ .code E_USER_NOT_FOUND := by
  exact ⟨by rfl, by rfl, by decide⟩

/-- Claim C4 amended: `mark_checkout` only mutates an existing record —
a registered caller (one holding a per-account sub-table) with no record
for the date fails with `E_USER_NOT_FOUND` (`RecordNotFound`) and the
state is carried unchanged; a caller with no sub-table at all fails with
the table's missing-key abort instead of `RecordNotFound`, also before any
mutation; and after a valid checkout from a reachable state, the
per-account copy carries check-out time `now` and is the unique record for
the caller in the per-date vector — both indices report the same
(non-zero whenever `now` is) check-out timestamp, the first matching
sequence entry being the only one. -/
theorem C4_checkout_amended
    (now : Nat) (u : Addr) (d : String) (st : Storage)
    (sys : AttendanceSystem) (hsys : tGet? st wenidi_addr = some sys) :
    (∀ ua, tGet? sys.daily_attendance u = some ua → tContains ua d = false →
      mark_checkout now u d st = .error (.code E_USER_NOT_FOUND, st)) ∧
    (tGet? sys.daily_attendance u = none →
      mark_checkout now u d st = .error (.tableMissingKey, st)) ∧
    (Reachable st → ∀ st', mark_checkout now u d st = .ok st' →
      ∀ sys', tGet? st' wenidi_addr = some sys' →
        ∃ r, dailyAt sys' u d = some r ∧ r.check_out_time = now ∧
          r ∈ recsAt sys' d ∧
          ∀ r2 ∈ recsAt sys' d, r2.user_address = u → r2 = r) := by
  refine ⟨?_, ?_, ?_⟩
  · intro ua hua hfree
    have hnone : tGet? ua d = none := by
      cases hx : tGet? ua d with
      | none => rfl
      | some r => simp [tContains, hx] at hfree
    unfold mark_checkout
    rw [hsys]
    dsimp only []
    rw [hua]
    dsimp only []
    rw [hnone]
  · intro hnone
    unfold mark_checkout
    rw [hsys]
    dsimp only []
    rw [hnone]
  · intro hreach st' hok sys' hget'
    obtain ⟨sys0, ua, r0, drs, hsys0, hua, hr0, hdrs, hst'⟩ := mark_checkout_ok hok
    rw [hsys] at hsys0
    injection hsys0 with hsys0
    subst hsys0
    have hinv := reachable_sysInv hreach wenidi_addr sys hsys
    have hget'2 : tGet? st' wenidi_addr =
        some (sysAfterCheckout now u d sys ua r0 drs) := by
      rw [hst']
      exact tGet?_tSet_self _ (by simp [tContains, hsys])
    rw [hget'2] at hget'
    injection hget' with hget'
    rw [← hget']
    have hinv' := sysInv_sysAfterCheckout now u d sys ua r0 drs hinv hua hr0 hdrs
    have hdaily' : dailyAt (sysAfterCheckout now u d sys ua r0 drs) u d =
        some { r0 with check_out_time := now } := by
      rw [dailyAt_sysAfterCheckout now u d sys ua r0 drs hua hr0, if_pos rfl,
        if_pos rfl]
    obtain ⟨hmem', hru', _⟩ := hinv'.d2r u d _ hdaily'
    refine ⟨{ r0 with check_out_time := now }, hdaily', rfl, hmem', ?_⟩
    intro r2 hr2 hr2u
    exact List.inj_on_of_nodup_map (hinv'.uniq d) hr2 hmem' (by rw [hr2u, hru'])

/-- The record of the concrete history after the student's checkout. -/
def recC4 : AttendanceRecord :=
  { markedRec 8 2 1 "2024-01-10" true with check_out_time := 9 }

/-- Witness for C4 (amended) on the concrete history: the registered
teacher `2` with no record for the date gets `RecordNotFound`; the
unregistered `7` gets the table abort; and after the student's valid
checkout at time 9 both indices report the same record with check-out
time 9. -/
theorem C4_witness :
    mark_checkout 9 2 "2024-01-10" stW4 =
      .error (.code E_USER_NOT_FOUND, stW4) ∧
    mark_checkout 9 7 "2024-01-10" stW4 = .error (.tableMissingKey, stW4) ∧
    dailyAt (sysAt stW5) 1 "2024-01-10" = some recC4 ∧
    recC4.check_out_time = 9 ∧
    recC4 ∈ recsAt (sysAt stW5) "2024-01-10" := by
  have h1 := (C4_checkout_amended 9 2 "2024-01-10" stW4 (sysAt stW4)
    (by rfl)).1 [] (by rfl) (by rfl)
  have h2 := (C4_checkout_amended 9 7 "2024-01-10" stW4 (sysAt stW4)
    (by rfl)).2.1 (by rfl)
  have h3 := (C4_checkout_amended 9 1 "2024-01-10" stW4 (sysAt stW4)
    (by rfl)).2.2 reachable_stW4 stW5 (by rfl) (sysAt stW5) (by rfl)
  obtain ⟨r, hra, hrb, hrc, _⟩ := h3
  have hc : dailyAt (sysAt stW5) 1 "2024-01-10" = some recC4 := by rfl
  rw [hc] at hra
  injection hra with hre
  rw [← hre] at hrb hrc
  exact ⟨h1, h2, hc, hrb, hrc⟩

/-- Claim C7: atomicity of every mutating operation — from any reachable
storage, whenever `initialize` / `register_user` / `mark_attendance` /
`mark_checkout` aborts, the storage carried at the abort point equals the
input storage: every validation that can fire does so before any mutation
(for `mark_checkout`'s late per-date borrow this needs the reachable-state
invariant), so no account, record, index entry or event of the failed call
survives; together with Move's rollback of aborted transactions the
committed state is unchanged. -/
theorem C7_failure_atomicity (st : Storage) (hreach : Reachable st)
    (c : EntryCall) (e : MoveAbort) (st2 : Storage)
    (herr : execCall c st = .error (e, st2)) : st2 = st := by
  cases c with
  | initCall now a =>
    replace herr : initSystem now a st = .error (e, st2) := herr
    unfold initSystem at herr
    split at herr
    · simp only [Except.error.injEq, Prod.mk.injEq] at herr
      exact herr.2.symm
    · exact absurd herr (by simp)
  | reg now a n ty =>
    replace herr : register_user now a n ty st = .error (e, st2) := herr
    unfold register_user at herr
    split at herr
    · simp only [Except.error.injEq, Prod.mk.injEq] at herr
      exact herr.2.symm
    · split at herr
      · split at herr
        · simp only [Except.error.injEq, Prod.mk.injEq] at herr
          exact herr.2.symm
        · exact absurd herr (by simp)
      · simp only [Except.error.injEq, Prod.mk.injEq] at herr
        exact herr.2.symm
  | mark now m u d p =>
    replace herr : mark_attendance now m u d p st = .error (e, st2) := herr
    unfold mark_attendance at herr
    split at herr
    · simp only [Except.error.injEq, Prod.mk.injEq] at herr
      exact herr.2.symm
    · split at herr
      · split at herr
        · split at herr
          · simp only [Except.error.injEq, Prod.mk.injEq] at herr
            exact herr.2.symm
          · split at herr
            · simp only [Except.error.injEq, Prod.mk.injEq] at herr
              exact herr.2.symm
            · exact absurd herr (by simp)
        · simp only [Except.error.injEq, Prod.mk.injEq] at herr
          exact herr.2.symm
      · simp only [Except.error.injEq, Prod.mk.injEq] at herr
        exact herr.2.symm
  | checkout now u d =>
    replace herr : mark_checkout now u d st = .error (e, st2) := herr
    unfold mark_checkout at herr
    split at herr
    · simp only [Except.error.injEq, Prod.mk.injEq] at herr
      exact herr.2.symm
    · next sys hsys =>
      split at herr
      · simp only [Except.error.injEq, Prod.mk.injEq] at herr
        exact herr.2.symm
      · next ua hua =>
        split at herr
        · simp only [Except.error.injEq, Prod.mk.injEq] at herr
          exact herr.2.symm
        · next r hr =>
          dsimp only [] at herr
          split at herr
          · next hnone =>
            exfalso
            have hinv := reachable_sysInv hreach wenidi_addr sys hsys
            have hdaily : dailyAt sys u d = some r := by
              unfold dailyAt
              rw [hua]
              exact hr
            obtain ⟨drs, hdrs⟩ := records_key_of_daily hinv hdaily
            rw [hdrs] at hnone
            cases hnone
          · exact absurd herr (by simp)

/-- Witness for C7 on the concrete history: the failing checkout of the
unregistered address `7` carries the reachable storage `stW4` through the
abort unchanged. -/
theorem C7_witness :
    Reachable stW4 ∧ okD (mark_checkout 9 7 "2024-01-10" stW4) = stW4 := by
  refine ⟨reachable_stW4, ?_⟩
  exact C7_failure_atomicity stW4 reachable_stW4 (.checkout 9 7 "2024-01-10")
    .tableMissingKey stW4 (by rfl)
